import Mathlib

/-!
# pca_mesh: the ensemble loader, the hand-over to the PCA engine and the writer

A shallow embedding of `main` in `src/pca_mesh.cpp`.

* The mesh reader (tinyply), the PCA engine (`pca_t`) and the file system are
  collaborators of `main`, not part of it.  A discovered file is represented by
  what the reader does with it (`PlyInput`); the PCA engine is a parameter.
* Floating-point values are only copied by `main`, never computed with, so the
  element type `F` of the float buffers is a parameter.
* C++ exceptions are explicit: a run of a block ends normally, or by a thrown
  object of a recorded type, or in a fault (an access outside a matrix, a signed
  overflow of an `int` loop counter).
* `file_count` is a `uint32_t`: its increment is taken modulo `2 ^ 32`.
* Console output and the printing of the eigenvalues and eigenvectors
  (lines 128-130) change nothing and are left out.
-/

namespace PcaMesh

/-- Largest value of the `int` loop counters `i` (32-bit `int`). -/
def INT_MAX : Nat := 2147483647

/-- Number of values of `uint32_t`, the type of `file_count`. -/
def UINT32_MOD : Nat := 4294967296

/-- Types of the objects thrown in `main`: something derived from
`std::exception` (thrown by the reader and by `std::vector::at`), or the
`const char*` of the string literal thrown at line 97. -/
inductive Exn where
  | stdException
  | cString
  deriving DecidableEq, Repr

/-- Faults: behaviour the language leaves undefined. -/
inductive Fault where
  | outOfBounds
  | signedOverflow
  deriving DecidableEq, Repr

/-- How the execution of a block ends, with the state it leaves behind. -/
inductive Run (σ : Type) where
  | normal (s : σ)
  | threw (e : Exn) (s : σ)
  | fault (k : Fault)

/-- The statements of the `try` block in which the mesh reader can throw:
line 88 (`PlyFile file(ss)`), lines 94, 99, 100, 102, 103 (the five calls of
`request_properties_from_element`) and line 105 (`file.read(ss)`). -/
inductive Stage where
  | header
  | requestVerts
  | requestNorms
  | requestColors
  | requestFaces
  | requestUV
  | read
  deriving DecidableEq, Repr

/-- One discovered file, as the mesh reader sees it: the statement at which the
reader throws a `std::exception` (if any), and the attribute arrays the file
holds (flattened; an attribute the file lacks is an empty array).

What `main` relies on from the reader: `request_properties_from_element` sizes
its destination to the number of values the file holds for the requested
properties (lines 67 and 96 read `size()` before any `read`), `file.read` then
fills the requested buffers, and a call that throws leaves the buffers as they
were when it was entered. -/
structure PlyInput (F : Type) where
  failure : Option Stage
  positions : List F
  normals : List F
  colors : List Nat
  faces : List Nat
  uvCoords : List F

/-- `std::vector::resize(n)`: keeps the first `n` elements and pads with
value-initialised ones. -/
def resize {α : Type} (z : α) (l : List α) (n : Nat) : List α :=
  l.take n ++ List.replicate (n - l.length) z

/-- `Eigen::Matrix<float, Dynamic, Dynamic>`: its dimensions and coefficients.
A coefficient is `none` until it is first written (the constructor at line 67
leaves the storage uninitialised). -/
structure Matrix (F : Type) where
  rows : Nat
  cols : Nat
  coeff : Nat → Nat → Option F

/-- Line 67: `pca_input_matrix(rows, cols)`. -/
def Matrix.alloc {F : Type} (rows cols : Nat) : Matrix F :=
  ⟨rows, cols, fun _ _ => none⟩

/-- `m(i, j) = v`; `none` when `(i, j)` is outside the matrix. -/
def Matrix.write {F : Type} (m : Matrix F) (i j : Nat) (v : F) : Option (Matrix F) :=
  if i < m.rows ∧ j < m.cols then
    some { m with coeff := fun a b => if a = i ∧ b = j then some v else m.coeff a b }
  else none

/-- The variables of `main` that the loader loop changes (lines 67-77). -/
structure LoaderState (F : Type) where
  pca_input_matrix : Matrix F
  verts : List F
  norms : List F
  colors : List Nat
  faces : List Nat
  uvCoords : List F
  file_count : Nat

/-- Lines 107-110, from counter value `i` on, `vs` being `verts[i..]`:
`for (int i = 0; i < verts.size(); ++i) pca_input_matrix(i, file_count) = verts[i];`
After the body has run at `i = INT_MAX` the increment overflows. -/
def writeColumnFrom {F : Type} (col : Nat) : Nat → List F → Matrix F → Run (Matrix F)
  | _, [], m => .normal m
  | i, v :: vs, m =>
    match m.write i col v with
    | none => .fault .outOfBounds
    | some m1 =>
      if i = INT_MAX then .fault .signedOverflow
      else writeColumnFrom col (i + 1) vs m1

/-- Lines 83-114: the body of the `try` block for one file.  `D` is
`verts_first_file.size()`. -/
def tryBody {F : Type} [Zero F] (D : Nat) (s : LoaderState F) (f : PlyInput F) :
    Run (LoaderState F) :=
  -- line 88
  if f.failure = some .header then .threw .stdException s else
  -- line 94
  if f.failure = some .requestVerts then .threw .stdException s else
  let s1 := { s with verts := resize 0 s.verts f.positions.length }
  -- lines 96-97
  if s1.verts.length ≠ D then .threw .cString s1 else
  -- line 99
  if f.failure = some .requestNorms then .threw .stdException s1 else
  let s2 := { s1 with norms := resize 0 s1.norms f.normals.length }
  -- line 100
  if f.failure = some .requestColors then .threw .stdException s2 else
  let s3 := { s2 with colors := resize 0 s2.colors f.colors.length }
  -- line 102
  if f.failure = some .requestFaces then .threw .stdException s3 else
  let s4 := { s3 with faces := resize 0 s3.faces f.faces.length }
  -- line 103
  if f.failure = some .requestUV then .threw .stdException s4 else
  let s5 := { s4 with uvCoords := resize 0 s4.uvCoords f.uvCoords.length }
  -- line 105
  if f.failure = some .read then .threw .stdException s5 else
  let s6 := { s5 with verts := f.positions, norms := f.normals, colors := f.colors,
                      faces := f.faces, uvCoords := f.uvCoords }
  -- lines 107-110
  match writeColumnFrom s6.file_count 0 s6.verts s6.pca_input_matrix with
  | .fault k => .fault k
  | .threw e _ => .threw e s6
  | .normal m =>
    -- line 112
    .normal { s6 with pca_input_matrix := m, file_count := (s6.file_count + 1) % UINT32_MOD }

/-- Lines 81-119: the `try` block with its handler `catch (const std::exception&)`.
The handler takes the objects derived from `std::exception` and no others. -/
def loadFile {F : Type} [Zero F] (D : Nat) (s : LoaderState F) (f : PlyInput F) :
    Run (LoaderState F) :=
  match tryBody D s f with
  | .threw .stdException s1 => .normal s1
  | r => r

/-- Lines 79-120: `for (const auto& filename : input_files) ...`. -/
def loaderLoop {F : Type} [Zero F] (D : Nat) :
    LoaderState F → List (PlyInput F) → Run (LoaderState F)
  | s, [] => .normal s
  | s, f :: rest =>
    match loadFile D s f with
    | .normal s1 => loaderLoop D s1 rest
    | r => r

/-- Lines 59-62: `input_files.at(0)` (throws `std::out_of_range` on an empty
list), the header of the first file and the request of its positions, after
which `verts_first_file.size()` is the number of flattened positions. -/
def firstFileSize {F : Type} : List (PlyInput F) → Except Exn Nat
  | [] => .error .stdException
  | f :: _ =>
    if f.failure = some .header then .error .stdException else
    if f.failure = some .requestVerts then .error .stdException else
    .ok f.positions.length

/-- Lines 67-77: the matrix and the empty buffers before the loop. -/
def initState {F : Type} (D N : Nat) : LoaderState F :=
  { pca_input_matrix := Matrix.alloc D N, verts := [], norms := [], colors := [],
    faces := [], uvCoords := [], file_count := 0 }

/-- The five arrays handed to the writer block (lines 151-160). -/
structure Buffers (F : Type) where
  verts : List F
  norms : List F
  colors : List Nat
  faces : List Nat
  uvCoords : List F

/-- One call of `add_properties_to_element` on the output file. -/
inductive Section (F : Type) where
  | vertexXYZ (data : List F)
  | vertexNormals (data : List F)
  | vertexColors (data : List Nat)
  | faceIndices (data : List Nat)
  | faceTexcoords (data : List F)

/-- Lines 151-160: the guarded calls of `add_properties_to_element`, in order. -/
def plySections {F : Type} (b : Buffers F) : List (Section F) :=
  (if !b.verts.isEmpty then [Section.vertexXYZ b.verts] else []) ++
  (if !b.norms.isEmpty then [Section.vertexNormals b.norms] else []) ++
  (if !b.colors.isEmpty then [Section.vertexColors b.colors] else []) ++
  (if !b.faces.isEmpty then [Section.faceIndices b.faces] else []) ++
  (if !b.uvCoords.isEmpty then [Section.faceTexcoords b.uvCoords] else [])

/-- Lines 134-137, from counter value `i` on:
`for (int i = 0; i < verts.size(); ++i) verts[i] = result(i, 0);`
`result` is column 0 of the matrix returned by `reprojection()`. -/
def copyResultFrom {F : Type} (result : List F) : Nat → List F → Run (List F)
  | _, [] => .normal []
  | i, _ :: vs =>
    match result[i]? with
    | none => .fault .outOfBounds
    | some r =>
      if i = INT_MAX then .fault .signedOverflow
      else
        match copyResultFrom result (i + 1) vs with
        | .normal vs1 => .normal (r :: vs1)
        | .threw e vs1 => .threw e (r :: vs1)
        | .fault k => .fault k

/-- What `main` does that is visible from outside, in order. -/
inductive Event (F : Type) where
  | set_input (m : Matrix F)
  | compute
  | reprojection
  | write (b : Buffers F)

/-- How `main` ends: it returns, or an exception nobody catches ends the
program (`std::terminate`), or it runs into a fault. -/
inductive Exit where
  | returned
  | terminated (e : Exn)
  | fault (k : Fault)
  deriving DecidableEq, Repr

/-- A run of `main`. -/
structure MainRun (F : Type) where
  trace : List (Event F)
  exit : Exit

/-- Lines 59-120: the probe of the first file, the allocation and the loop. -/
def loadEnsemble {F : Type} [Zero F] (input_files : List (PlyInput F)) :
    Run (LoaderState F) :=
  match firstFileSize input_files with
  | .error e => .threw e (initState 0 0)
  | .ok D => loaderLoop D (initState D input_files.length) input_files

/-- Lines 31-171 (`main`).  `reprojection m` is column 0 of what
`pca.reprojection()` returns after `pca.set_input(m); pca.compute();`.  The
event `write b` stands for the writer block of lines 139-165 run on the arrays
`b`, which puts the sections `plySections b` into the output file. -/
def main {F : Type} [Zero F] (reprojection : Matrix F → List F)
    (input_files : List (PlyInput F)) : MainRun F :=
  match loadEnsemble input_files with
  | .threw e _ => ⟨[], .terminated e⟩
  | .fault k => ⟨[], .fault k⟩
  | .normal s =>
    -- lines 124-132
    let called : List (Event F) := [.set_input s.pca_input_matrix, .compute, .reprojection]
    -- lines 134-137
    match copyResultFrom (reprojection s.pca_input_matrix) 0 s.verts with
    | .fault k => ⟨called, .fault k⟩
    | .threw e _ => ⟨called, .terminated e⟩
    | .normal verts =>
      ⟨called ++ [.write ⟨verts, s.norms, s.colors, s.faces, s.uvCoords⟩], .returned⟩

/-- A file is accepted when the reader throws at none of its statements and
the number of its flattened positions is that of the first file. -/
def accepted {F : Type} (D : Nat) (f : PlyInput F) : Bool :=
  f.failure.isNone && f.positions.length == D

/-- A file that does not run into the throw of line 97: the reader throws
before the check, or the position count is that of the first file. -/
def passesCheck {F : Type} (D : Nat) (f : PlyInput F) : Prop :=
  f.failure = some .header ∨ f.failure = some .requestVerts ∨ f.positions.length = D

/-- The PCA engine has been invoked: `set_input` or `compute` is in the trace. -/
def pcaInvoked {F : Type} (r : MainRun F) : Bool :=
  r.trace.any fun e =>
    match e with
    | .set_input _ => true
    | .compute => true
    | _ => false

/-- The writer block has run: an output file has been written. -/
def outputWritten {F : Type} (r : MainRun F) : Bool :=
  r.trace.any fun e =>
    match e with
    | .write _ => true
    | _ => false

/-! ## Sample inputs

Coordinates are written as integers; `main` only copies them. -/

/-- A mesh of one vertex with nothing but positions; the reader reads it. -/
def meshA : PlyInput Int :=
  { failure := none, positions := [1, 2, 3], normals := [], colors := [], faces := [],
    uvCoords := [] }

/-- A second mesh of one vertex, with a normal; the reader reads it. -/
def meshB : PlyInput Int :=
  { failure := none, positions := [4, 5, 6], normals := [0, 0, 1], colors := [],
    faces := [], uvCoords := [] }

/-- A mesh of two vertices: its position count differs from that of `meshA`. -/
def meshTwoVertices : PlyInput Int :=
  { failure := none, positions := [1, 2, 3, 4, 5, 6], normals := [], colors := [],
    faces := [], uvCoords := [] }

/-- A mesh of one vertex whose header is read but whose body makes
`file.read` throw. -/
def meshUnreadable : PlyInput Int :=
  { failure := some .read, positions := [7, 8, 9], normals := [], colors := [],
    faces := [], uvCoords := [] }

/-- A mesh of one vertex with a normal, for which the request of the colours
throws (line 100), after the request of the normals (line 99) has run. -/
def meshBadColors : PlyInput Int :=
  { failure := some .requestColors, positions := [7, 8, 9], normals := [0, 0, 1],
    colors := [], faces := [], uvCoords := [] }

/-- A PCA engine whose reprojection returns three zeros whatever its input. -/
def zeroEngine : Matrix Int → List Int := fun _ => [0, 0, 0]

/-- A file whose header the reader cannot parse: `PlyFile file(ss)` throws. -/
def meshBadHeader : PlyInput Int :=
  { failure := some .header, positions := [], normals := [], colors := [], faces := [],
    uvCoords := [] }

/-! ## Auxiliary facts -/

theorem resize_length {α : Type} (z : α) (l : List α) (n : Nat) :
    (resize z l n).length = n := by
  simp [resize]
  omega

theorem writeColumnFrom_ne_threw {F : Type} (col : Nat) (vs : List F) :
    ∀ (i : Nat) (m : Matrix F) (e : Exn) (m1 : Matrix F),
      writeColumnFrom col i vs m ≠ .threw e m1 := by
  induction vs with
  | nil => intro i m e m1 h; simp [writeColumnFrom] at h
  | cons v vs ih =>
    intro i m e m1 h
    simp only [writeColumnFrom] at h
    split at h
    · exact Run.noConfusion h
    · split_ifs at h
      exact ih _ _ _ _ h

/-- A `std::exception` leaves the `try` block only before the matrix is
written and before `file_count` is incremented. -/
theorem tryBody_stdException {F : Type} [Zero F] (D : Nat) (s s1 : LoaderState F)
    (f : PlyInput F) (h : tryBody D s f = .threw .stdException s1) :
    s1.file_count = s.file_count ∧ s1.pca_input_matrix = s.pca_input_matrix := by
  simp only [tryBody] at h
  split_ifs at h
  all_goals first
    | (injection h with _ h2; subst h2; exact ⟨rfl, rfl⟩)
    | skip
  split at h
  · exact Run.noConfusion h
  · rename_i e m1 hw
    exact absurd hw (writeColumnFrom_ne_threw _ _ _ _ _ _)
  · exact Run.noConfusion h

/-- What a completed run of the column loop has done to the matrix. -/
theorem writeColumnFrom_normal {F : Type} (col : Nat) (vs : List F) :
    ∀ (i : Nat) (m m1 : Matrix F), writeColumnFrom col i vs m = .normal m1 →
      m1.rows = m.rows ∧ m1.cols = m.cols ∧
      ∀ a b, m1.coeff a b =
        if b = col ∧ i ≤ a ∧ a < i + vs.length then vs[a - i]? else m.coeff a b := by
  induction vs with
  | nil =>
    intro i m m1 h
    simp only [writeColumnFrom] at h
    injection h with h
    subst h
    refine ⟨rfl, rfl, ?_⟩
    intro a b
    have h0 : ¬ (b = col ∧ i ≤ a ∧ a < i + ([] : List F).length) := by
      simp only [List.length_nil]
      omega
    rw [if_neg h0]
  | cons v vs ih =>
    intro i m m1 h
    simp only [writeColumnFrom] at h
    split at h
    · exact Run.noConfusion h
    · rename_i m2 hw
      split_ifs at h
      obtain ⟨hr, hc, hco⟩ := ih _ _ _ h
      unfold Matrix.write at hw
      split_ifs at hw
      injection hw with hw
      subst hw
      refine ⟨hr, hc, ?_⟩
      intro a b
      rw [hco a b]
      simp only [List.length_cons]
      by_cases hb : b = col
      · by_cases h1 : i + 1 ≤ a ∧ a < i + 1 + vs.length
        · have h2 : i ≤ a ∧ a < i + (vs.length + 1) := by omega
          have h3 : a - i = (a - (i + 1)) + 1 := by omega
          simp [hb, h1, h2, h3]
        · by_cases h4 : a = i
          · subst h4
            simp [hb]
          · have h2 : ¬ (i ≤ a ∧ a < i + (vs.length + 1)) := by omega
            simp [hb, h1, h2, h4]
      · simp [hb]

/-- The column loop stays inside the matrix when the column exists and the
vector is no longer than the matrix is high. -/
theorem writeColumnFrom_inBounds {F : Type} (col : Nat) (vs : List F) :
    ∀ (i : Nat) (m : Matrix F), col < m.cols → i + vs.length ≤ m.rows →
      writeColumnFrom col i vs m ≠ .fault .outOfBounds := by
  induction vs with
  | nil => intro i m _ _ h; simp [writeColumnFrom] at h
  | cons v vs ih =>
    intro i m hc hr h
    simp only [List.length_cons] at hr
    simp only [writeColumnFrom] at h
    split at h
    · rename_i hw
      unfold Matrix.write at hw
      split_ifs at hw with hb
      exact hb ⟨by omega, hc⟩
    · rename_i m2 hw
      split_ifs at h
      · cases h
      · unfold Matrix.write at hw
        split_ifs at hw
        injection hw with hw
        subst hw
        have hr2 : i + 1 + vs.length ≤ m.rows := by omega
        refine ih (i + 1) _ ?_ ?_ h
        · exact hc
        · exact hr2

theorem failure_none_of_ne {o : Option Stage}
    (h1 : ¬ o = some .header) (h2 : ¬ o = some .requestVerts)
    (h3 : ¬ o = some .requestNorms) (h4 : ¬ o = some .requestColors)
    (h5 : ¬ o = some .requestFaces) (h6 : ¬ o = some .requestUV)
    (h7 : ¬ o = some .read) : o = none := by
  cases o with
  | none => rfl
  | some st => cases st <;> simp_all

/-- A normal end of the `try` block: the file is accepted, its arrays are in
the buffers, its positions are in column `file_count`, and `file_count` has
been incremented. -/
theorem tryBody_normal {F : Type} [Zero F] (D : Nat) (s s1 : LoaderState F)
    (f : PlyInput F) (h : tryBody D s f = .normal s1) :
    accepted D f = true ∧
    writeColumnFrom s.file_count 0 f.positions s.pca_input_matrix
      = .normal s1.pca_input_matrix ∧
    s1.file_count = (s.file_count + 1) % UINT32_MOD ∧
    s1.verts = f.positions ∧ s1.norms = f.normals ∧ s1.colors = f.colors ∧
    s1.faces = f.faces ∧ s1.uvCoords = f.uvCoords := by
  simp only [tryBody] at h
  split_ifs at h with h1 h2 hD h3 h4 h5 h6 h7
  split at h
  · exact Run.noConfusion h
  · exact Run.noConfusion h
  · rename_i m hw
    injection h with h
    subst h
    have hnone := failure_none_of_ne h1 h2 h3 h4 h5 h6 h7
    simp only [resize_length, ne_eq, Decidable.not_not] at hD
    refine ⟨?_, hw, rfl, rfl, rfl, rfl, rfl, rfl⟩
    simp [accepted, hnone, hD]

/-- A file at which a `std::exception` leaves the `try` block is not an
accepted file. -/
theorem tryBody_stdException_not_accepted {F : Type} [Zero F] (D : Nat)
    (s s1 : LoaderState F) (f : PlyInput F)
    (h : tryBody D s f = .threw .stdException s1) : accepted D f = false := by
  simp only [tryBody] at h
  split_ifs at h with h1 h2 hD h3 h4 h5 h6 h7
  all_goals first
    | (simp_all [accepted]; done)
    | skip
  split at h
  · exact Run.noConfusion h
  · rename_i e m1 hw
    exact absurd hw (writeColumnFrom_ne_threw _ _ _ _ _ _)
  · exact Run.noConfusion h

/-- The handler turns a `std::exception` into a normal end of the iteration
and lets everything else through. -/
theorem loadFile_normal {F : Type} [Zero F] (D : Nat) (s s1 : LoaderState F)
    (f : PlyInput F) (h : loadFile D s f = .normal s1) :
    tryBody D s f = .normal s1 ∨ tryBody D s f = .threw .stdException s1 := by
  unfold loadFile at h
  split at h
  · rename_i s2 h2
    injection h with h
    subst h
    exact Or.inr h2
  · exact Or.inl h

/-- One iteration that ends normally leaves the dimensions of the matrix
alone and advances `file_count` by at most one. -/
theorem loadFile_normal_dims {F : Type} [Zero F] (D : Nat) (s s1 : LoaderState F)
    (f : PlyInput F) (h : loadFile D s f = .normal s1) :
    s1.pca_input_matrix.rows = s.pca_input_matrix.rows ∧
    s1.pca_input_matrix.cols = s.pca_input_matrix.cols ∧
    s1.file_count ≤ s.file_count + 1 := by
  rcases loadFile_normal D s s1 f h with h1 | h1
  · obtain ⟨_, hw, hc, _⟩ := tryBody_normal D s s1 f h1
    obtain ⟨hr, hcl, _⟩ := writeColumnFrom_normal _ _ _ _ _ hw
    refine ⟨hr, hcl, ?_⟩
    rw [hc]
    exact le_trans (Nat.mod_le _ _) le_rfl
  · obtain ⟨hc, hm⟩ := tryBody_stdException D s s1 f h1
    rw [hc, hm]
    exact ⟨rfl, rfl, Nat.le_succ _⟩

/-- The `try` block writes inside the matrix when column `file_count` exists
and the matrix has `D` rows. -/
theorem tryBody_inBounds {F : Type} [Zero F] (D : Nat) (s : LoaderState F)
    (f : PlyInput F) (hr : s.pca_input_matrix.rows = D)
    (hc : s.file_count < s.pca_input_matrix.cols) :
    tryBody D s f ≠ .fault .outOfBounds := by
  intro h
  simp only [tryBody] at h
  split_ifs at h with h1 h2 hD h3 h4 h5 h6 h7
  simp only [resize_length, ne_eq, Decidable.not_not] at hD
  split at h
  · rename_i k hw
    injection h with h
    subst h
    refine writeColumnFrom_inBounds _ _ _ _ ?_ ?_ hw
    · exact hc
    · simp only [Nat.zero_add]
      rw [hr, hD]
  · exact Run.noConfusion h
  · exact Run.noConfusion h

theorem loadFile_inBounds {F : Type} [Zero F] (D : Nat) (s : LoaderState F)
    (f : PlyInput F) (hr : s.pca_input_matrix.rows = D)
    (hc : s.file_count < s.pca_input_matrix.cols) :
    loadFile D s f ≠ .fault .outOfBounds := by
  intro h
  unfold loadFile at h
  split at h
  · exact Run.noConfusion h
  · exact tryBody_inBounds D s f hr hc h

/-- The loop never leaves the matrix when the columns from `file_count` on are
at least as many as the files still to be read. -/
theorem loaderLoop_inBounds {F : Type} [Zero F] (D : Nat) (files : List (PlyInput F)) :
    ∀ s : LoaderState F, s.pca_input_matrix.rows = D →
      s.file_count + files.length ≤ s.pca_input_matrix.cols →
      loaderLoop D s files ≠ .fault .outOfBounds := by
  induction files with
  | nil => intro s _ _ h; simp [loaderLoop] at h
  | cons f rest ih =>
    intro s hr hc h
    simp only [List.length_cons] at hc
    simp only [loaderLoop] at h
    split at h
    · rename_i s1 h1
      obtain ⟨hr1, hc1, hf1⟩ := loadFile_normal_dims D s s1 f h1
      refine ih s1 (by rw [hr1, hr]) ?_ h
      rw [hc1]
      omega
    · exact loadFile_inBounds D s f hr (by omega) h

/-- The loop advances `file_count` by at most the number of files it reads. -/
theorem loaderLoop_file_count_le {F : Type} [Zero F] (D : Nat)
    (files : List (PlyInput F)) :
    ∀ s s1 : LoaderState F, loaderLoop D s files = .normal s1 →
      s1.file_count ≤ s.file_count + files.length := by
  induction files with
  | nil =>
    intro s s1 h
    simp only [loaderLoop] at h
    injection h with h
    subst h
    simp
  | cons f rest ih =>
    intro s s1 h
    simp only [loaderLoop] at h
    split at h
    · rename_i s2 h2
      obtain ⟨_, _, hf⟩ := loadFile_normal_dims D s s2 f h2
      have := ih s2 s1 h
      simp only [List.length_cons]
      omega
    · rename_i r hne
      exact absurd h (hne s1)

/-- The invariant of the loop on the written columns: with `acc` the files
accepted so far, `file_count` is their number and column `k` holds the
positions of `acc[k]`. -/
theorem loaderLoop_columns {F : Type} [Zero F] (D : Nat) (files : List (PlyInput F)) :
    ∀ (s s1 : LoaderState F) (acc : List (PlyInput F)),
      loaderLoop D s files = .normal s1 →
      s.file_count = acc.length →
      acc.length + files.length < UINT32_MOD →
      (∀ k i, k < acc.length → i < D →
        ∃ f v, acc[k]? = some f ∧ f.positions[i]? = some v ∧
          s.pca_input_matrix.coeff i k = some v) →
      s1.file_count = (acc ++ files.filter (accepted D)).length ∧
      (∀ k i, k < (acc ++ files.filter (accepted D)).length → i < D →
        ∃ f v, (acc ++ files.filter (accepted D))[k]? = some f ∧
          f.positions[i]? = some v ∧ s1.pca_input_matrix.coeff i k = some v) := by
  induction files with
  | nil =>
    intro s s1 acc h hfc _ hinv
    simp only [loaderLoop] at h
    injection h with h
    subst h
    simp only [List.filter_nil, List.append_nil]
    exact ⟨hfc, hinv⟩
  | cons f rest ih =>
    intro s s1 acc h hfc hlen hinv
    simp only [List.length_cons] at hlen
    simp only [loaderLoop] at h
    split at h
    · rename_i s2 h2
      rcases loadFile_normal D s s2 f h2 with h3 | h3
      · -- the file is accepted
        obtain ⟨hacc, hw, hc, _⟩ := tryBody_normal D s s2 f h3
        obtain ⟨_, _, hco⟩ := writeColumnFrom_normal _ _ _ _ _ hw
        have hlenD : f.positions.length = D := by
          simp [accepted] at hacc
          exact hacc.2
        have hfilter : acc ++ (f :: rest).filter (accepted D)
            = (acc ++ [f]) ++ rest.filter (accepted D) := by
          simp [List.filter_cons, hacc]
        rw [hfilter]
        refine ih s2 s1 (acc ++ [f]) h ?_ ?_ ?_
        · rw [hc, hfc, List.length_append, List.length_singleton]
          exact Nat.mod_eq_of_lt (by omega)
        · rw [List.length_append, List.length_singleton]
          omega
        · intro k i hk hi
          rw [List.length_append, List.length_singleton] at hk
          rw [hco i k]
          by_cases hkk : k = acc.length
          · subst hkk
            have hi2 : i < f.positions.length := by omega
            refine ⟨f, f.positions[i], ?_, ?_, ?_⟩
            · simp
            · simp [hi2]
            · simp [hfc, hi2]
          · have hk2 : k < acc.length := by omega
            obtain ⟨g, v, hg, hv, hcv⟩ := hinv k i hk2 hi
            refine ⟨g, v, ?_, hv, ?_⟩
            · rw [List.getElem?_append_left hk2]
              exact hg
            · have hne : ¬ (k = s.file_count ∧ 0 ≤ i ∧ i < 0 + f.positions.length) := by
                rw [hfc]
                omega
              rw [if_neg hne]
              exact hcv
      · -- the reader threw: nothing is written
        have hacc := tryBody_stdException_not_accepted D s s2 f h3
        obtain ⟨hc, hm⟩ := tryBody_stdException D s s2 f h3
        have hfilter : (f :: rest).filter (accepted D) = rest.filter (accepted D) := by
          simp [List.filter_cons, hacc]
        rw [hfilter]
        refine ih s2 s1 acc h (by rw [hc, hfc]) (by omega) ?_
        rw [hm]
        exact hinv
    · rename_i r hne
      exact absurd h (hne s1)

/-- After a `std::exception` the position buffer is either untouched or has
been resized to `D` elements. -/
theorem tryBody_stdException_verts {F : Type} [Zero F] (D : Nat)
    (s s1 : LoaderState F) (f : PlyInput F)
    (h : tryBody D s f = .threw .stdException s1) :
    s1.verts = s.verts ∨ s1.verts.length = D := by
  simp only [tryBody] at h
  split_ifs at h with h1 h2 hD h3 h4 h5 h6 h7
  all_goals first
    | (injection h with he _; exact absurd he (by decide))
    | (injection h with _ hs; subst hs; exact Or.inl rfl)
    | (injection h with _ hs; subst hs
       simp only [resize_length, ne_eq, Decidable.not_not] at hD
       exact Or.inr (by simpa [resize_length] using hD))
    | skip
  split at h
  · exact Run.noConfusion h
  · rename_i e m1 hw
    exact absurd hw (writeColumnFrom_ne_threw _ _ _ _ _ _)
  · exact Run.noConfusion h

/-- When the loop ends normally the position buffer has `D` elements, provided
it had before the loop or some file of the list is accepted. -/
theorem loaderLoop_verts_length {F : Type} [Zero F] (D : Nat)
    (files : List (PlyInput F)) :
    ∀ s s1 : LoaderState F, loaderLoop D s files = .normal s1 →
      (s.verts.length = D ∨ ∃ f ∈ files, accepted D f = true) →
      s1.verts.length = D := by
  induction files with
  | nil =>
    intro s s1 h hor
    simp only [loaderLoop] at h
    injection h with h
    subst h
    rcases hor with h0 | ⟨f, hf, _⟩
    · exact h0
    · simp at hf
  | cons f rest ih =>
    intro s s1 h hor
    simp only [loaderLoop] at h
    split at h
    · rename_i s2 h2
      rcases loadFile_normal D s s2 f h2 with h3 | h3
      · obtain ⟨hacc, _, _, hv, _⟩ := tryBody_normal D s s2 f h3
        refine ih s2 s1 h (Or.inl ?_)
        rw [hv]
        simp [accepted] at hacc
        exact hacc.2
      · have hna := tryBody_stdException_not_accepted D s s2 f h3
        rcases tryBody_stdException_verts D s s2 f h3 with hv | hv
        · rcases hor with h0 | ⟨g, hg, hga⟩
          · exact ih s2 s1 h (Or.inl (by rw [hv]; exact h0))
          · rcases List.mem_cons.mp hg with hgf | hgr
            · subst hgf
              rw [hna] at hga
              exact absurd hga (by simp)
            · exact ih s2 s1 h (Or.inr ⟨g, hgr, hga⟩)
        · exact ih s2 s1 h (Or.inl hv)
    · rename_i r hne
      exact absurd h (hne s1)

/-- The loop leaves the dimensions of the matrix alone. -/
theorem loaderLoop_dims {F : Type} [Zero F] (D : Nat) (files : List (PlyInput F)) :
    ∀ s s1 : LoaderState F, loaderLoop D s files = .normal s1 →
      s1.pca_input_matrix.rows = s.pca_input_matrix.rows ∧
      s1.pca_input_matrix.cols = s.pca_input_matrix.cols := by
  induction files with
  | nil =>
    intro s s1 h
    simp only [loaderLoop] at h
    injection h with h
    subst h
    exact ⟨rfl, rfl⟩
  | cons f rest ih =>
    intro s s1 h
    simp only [loaderLoop] at h
    split at h
    · rename_i s2 h2
      obtain ⟨hr, hc, _⟩ := loadFile_normal_dims D s s2 f h2
      obtain ⟨hr1, hc1⟩ := ih s2 s1 h
      exact ⟨hr1.trans hr, hc1.trans hc⟩
    · rename_i r hne
      exact absurd h (hne s1)

/-- What a completed run of the copy loop of lines 134-137 has produced. -/
theorem copyResultFrom_normal {F : Type} (result : List F) (vs : List F) :
    ∀ (i : Nat) (out : List F), copyResultFrom result i vs = .normal out →
      out.length = vs.length ∧
      ∀ j, j < vs.length → ∃ v, result[i + j]? = some v ∧ out[j]? = some v := by
  induction vs with
  | nil =>
    intro i out h
    simp only [copyResultFrom] at h
    injection h with h
    subst h
    simp
  | cons x vs ih =>
    intro i out h
    simp only [copyResultFrom] at h
    split at h
    · exact Run.noConfusion h
    · rename_i r hr
      split_ifs at h
      split at h
      · rename_i vs1 h1
        injection h with h
        subst h
        obtain ⟨hl, hj⟩ := ih _ _ h1
        refine ⟨by simp [hl], ?_⟩
        intro j hjlt
        cases j with
        | zero => exact ⟨r, by simpa using hr, by simp⟩
        | succ j =>
          simp only [List.length_cons, Nat.add_lt_add_iff_right] at hjlt
          obtain ⟨v, hv1, hv2⟩ := hj j hjlt
          refine ⟨v, ?_, by simpa using hv2⟩
          have he : i + (j + 1) = i + 1 + j := by omega
          rw [he]
          exact hv1
      · exact Run.noConfusion h
      · exact Run.noConfusion h

/-- A normal end of the loader: the probe of the first file gave `D` and the
loop ran to its end from the freshly allocated matrix. -/
theorem loadEnsemble_normal {F : Type} [Zero F] (files : List (PlyInput F))
    (s : LoaderState F) (h : loadEnsemble files = .normal s) :
    ∃ D, firstFileSize files = .ok D ∧
      loaderLoop D (initState D files.length) files = .normal s := by
  unfold loadEnsemble at h
  split at h
  · exact Run.noConfusion h
  · rename_i D hD
    exact ⟨D, hD, h⟩

/-- A run of `main` that returns: the loader ended normally, the copy loop
ran to its end, and the four events happened in order. -/
theorem main_returned {F : Type} [Zero F] (reprojection : Matrix F → List F)
    (files : List (PlyInput F)) (h : (main reprojection files).exit = .returned) :
    ∃ s verts, loadEnsemble files = .normal s ∧
      copyResultFrom (reprojection s.pca_input_matrix) 0 s.verts = .normal verts ∧
      (main reprojection files).trace =
        [.set_input s.pca_input_matrix, .compute, .reprojection,
         .write ⟨verts, s.norms, s.colors, s.faces, s.uvCoords⟩] := by
  cases hs : loadEnsemble files with
  | threw e s0 => simp [main, hs] at h
  | fault k => simp [main, hs] at h
  | normal s =>
    cases hv : copyResultFrom (reprojection s.pca_input_matrix) 0 s.verts with
    | fault k => simp [main, hs, hv] at h
    | threw e v => simp [main, hs, hv] at h
    | normal verts => exact ⟨s, verts, rfl, hv, by simp [main, hs, hv]⟩

/-- Whenever the loader ends normally the PCA engine is invoked on the whole
allocated matrix: the trace of `main` starts with `set_input`, `compute`,
`reprojection`. -/
theorem main_trace_of_normal {F : Type} [Zero F] (reprojection : Matrix F → List F)
    (files : List (PlyInput F)) (s : LoaderState F)
    (h : loadEnsemble files = .normal s) :
    ∃ tail, (main reprojection files).trace =
      [.set_input s.pca_input_matrix, .compute, .reprojection] ++ tail := by
  unfold main
  rw [h]
  simp only
  split
  · exact ⟨[], by simp⟩
  · exact ⟨[], by simp⟩
  · exact ⟨_, rfl⟩

/-- Every statement of the reader can be the one at which a `std::exception`
leaves the `try` block: the header and the position request always, the later
ones when the position count passes the check of line 96. -/
theorem tryBody_throws_at_failure {F : Type} [Zero F] (D : Nat) (s : LoaderState F)
    (f : PlyInput F) (st : Stage) (hfail : f.failure = some st)
    (hreached : st = .header ∨ st = .requestVerts ∨ f.positions.length = D) :
    ∃ s1, tryBody D s f = .threw .stdException s1 := by
  cases st <;> simp [tryBody, hfail, resize_length] <;>
    rcases hreached with h | h | h <;> simp_all

/-- The column loop runs to its end when it stays inside the matrix and the
counter stays within `int`. -/
theorem writeColumnFrom_total {F : Type} (col : Nat) (vs : List F) :
    ∀ (i : Nat) (m : Matrix F), col < m.cols → i + vs.length ≤ m.rows →
      i + vs.length ≤ INT_MAX → ∃ m1, writeColumnFrom col i vs m = .normal m1 := by
  induction vs with
  | nil => intro i m _ _ _; exact ⟨m, rfl⟩
  | cons v vs ih =>
    intro i m hc hr hi
    simp only [List.length_cons] at hr hi
    have hw : m.write i col v
        = some { m with coeff := fun a b => if a = i ∧ b = col then some v else m.coeff a b } := by
      unfold Matrix.write
      rw [if_pos ⟨by omega, hc⟩]
    have hne : ¬ i = INT_MAX := by omega
    simp only [writeColumnFrom, hw, if_neg hne]
    refine ih (i + 1) _ ?_ ?_ ?_
    · exact hc
    · show i + 1 + vs.length ≤ m.rows
      omega
    · omega

/-- The copy loop of lines 134-137 runs to its end when the reprojection has
an entry for every position and the counter stays within `int`. -/
theorem copyResultFrom_total {F : Type} (result : List F) (vs : List F) :
    ∀ i : Nat, i + vs.length ≤ result.length → i + vs.length ≤ INT_MAX →
      ∃ out, copyResultFrom result i vs = .normal out := by
  induction vs with
  | nil => intro i _ _; exact ⟨[], rfl⟩
  | cons v vs ih =>
    intro i hr hi
    simp only [List.length_cons] at hr hi
    have hlt : i < result.length := by omega
    have hne : ¬ i = INT_MAX := by omega
    obtain ⟨out, hout⟩ := ih (i + 1) (by omega) (by omega)
    refine ⟨result[i] :: out, ?_⟩
    simp only [copyResultFrom, List.getElem?_eq_getElem hlt, if_neg hne, hout]

/-- The throw of line 97 is not reached by a file that passes the check. -/
theorem tryBody_ne_cString {F : Type} [Zero F] (D : Nat) (s s1 : LoaderState F)
    (f : PlyInput F) (hp : passesCheck D f) : tryBody D s f ≠ .threw .cString s1 := by
  intro ht
  simp only [tryBody] at ht
  split_ifs at ht with h1 h2 h3 h4 h5 h6 h7 h8
  all_goals first
    | (injection ht with he _; exact absurd he (by decide))
    | skip
  · rw [resize_length] at h3
    rcases hp with h | h | h
    · exact h1 h
    · exact h2 h
    · exact h3 h
  · split at ht
    · exact Run.noConfusion ht
    · rename_i e m1 hw
      exact absurd hw (writeColumnFrom_ne_threw _ _ _ _ _ _)
    · exact Run.noConfusion ht

/-- The `try` block runs into no fault when column `file_count` exists, the
matrix has `D` rows and `D` fits `int`. -/
theorem tryBody_ne_fault {F : Type} [Zero F] (D : Nat) (s : LoaderState F)
    (f : PlyInput F) (k : Fault) (hr : s.pca_input_matrix.rows = D)
    (hc : s.file_count < s.pca_input_matrix.cols) (hD : D ≤ INT_MAX) :
    tryBody D s f ≠ .fault k := by
  intro ht
  simp only [tryBody] at ht
  split_ifs at ht with h1 h2 h3 h4 h5 h6 h7 h8
  rw [resize_length] at h3
  have hlen : f.positions.length = D := not_not.mp h3
  have hle1 : 0 + f.positions.length ≤ s.pca_input_matrix.rows := by
    rw [hr, hlen, Nat.zero_add]
  have hle2 : 0 + f.positions.length ≤ INT_MAX := by
    rw [hlen, Nat.zero_add]
    exact hD
  obtain ⟨m1, hm1⟩ := writeColumnFrom_total s.file_count f.positions 0
    s.pca_input_matrix hc hle1 hle2
  rw [hm1] at ht
  exact Run.noConfusion ht

/-- One iteration ends normally for a file that passes the check of line 96,
when column `file_count` exists, the matrix has `D` rows and `D` fits `int`. -/
theorem loadFile_total {F : Type} [Zero F] (D : Nat) (s : LoaderState F)
    (f : PlyInput F) (hp : passesCheck D f) (hr : s.pca_input_matrix.rows = D)
    (hc : s.file_count < s.pca_input_matrix.cols) (hD : D ≤ INT_MAX) :
    ∃ s1, loadFile D s f = .normal s1 := by
  cases ht : tryBody D s f with
  | normal s1 => exact ⟨s1, by simp [loadFile, ht]⟩
  | threw e s1 =>
    cases e with
    | stdException => exact ⟨s1, by simp [loadFile, ht]⟩
    | cString => exact absurd ht (tryBody_ne_cString D s s1 f hp)
  | fault k => exact absurd ht (tryBody_ne_fault D s f k hr hc hD)

/-- The loop ends normally when no file runs into the throw of line 97. -/
theorem loaderLoop_total {F : Type} [Zero F] (D : Nat) (hD : D ≤ INT_MAX)
    (files : List (PlyInput F)) :
    ∀ s : LoaderState F, (∀ f ∈ files, passesCheck D f) →
      s.pca_input_matrix.rows = D →
      s.file_count + files.length ≤ s.pca_input_matrix.cols →
      ∃ s1, loaderLoop D s files = .normal s1 := by
  induction files with
  | nil => intro s _ _ _; exact ⟨s, rfl⟩
  | cons f rest ih =>
    intro s hp hr hc
    simp only [List.length_cons] at hc
    obtain ⟨s2, h2⟩ := loadFile_total D s f (hp f (List.mem_cons_self _ _)) hr
      (by omega) hD
    obtain ⟨hr2, hc2, hf2⟩ := loadFile_normal_dims D s s2 f h2
    obtain ⟨s1, h1⟩ := ih s2 (fun g hg => hp g (List.mem_cons_of_mem _ hg))
      (by rw [hr2, hr]) (by rw [hc2]; omega)
    exact ⟨s1, by simp only [loaderLoop, h2, h1]⟩

/-- When the loop ends normally the position buffer has at most `D` elements
if it had before. -/
theorem loaderLoop_verts_le {F : Type} [Zero F] (D : Nat)
    (files : List (PlyInput F)) :
    ∀ s s1 : LoaderState F, loaderLoop D s files = .normal s1 →
      s.verts.length ≤ D → s1.verts.length ≤ D := by
  induction files with
  | nil =>
    intro s s1 h h0
    simp only [loaderLoop] at h
    injection h with h
    subst h
    exact h0
  | cons f rest ih =>
    intro s s1 h h0
    simp only [loaderLoop] at h
    split at h
    · rename_i s2 h2
      refine ih s2 s1 h ?_
      rcases loadFile_normal D s s2 f h2 with h3 | h3
      · obtain ⟨hacc, _, _, hv, _⟩ := tryBody_normal D s s2 f h3
        rw [hv]
        simp [accepted] at hacc
        exact le_of_eq hacc.2
      · rcases tryBody_stdException_verts D s s2 f h3 with hv | hv
        · rw [hv]; exact h0
        · exact le_of_eq hv
    · rename_i r hne
      exact absurd h (hne s1)

/-- Reaching the writer: `main` returns when the probe of the first file
succeeds, no file runs into the throw of line 97, the position count fits
`int`, and the reprojection has at least that many entries. -/
theorem main_returns {F : Type} [Zero F] (reprojection : Matrix F → List F)
    (files : List (PlyInput F)) (D : Nat)
    (hD : firstFileSize files = .ok D) (hp : ∀ f ∈ files, passesCheck D f)
    (hint : D ≤ INT_MAX) (hres : ∀ m, D ≤ (reprojection m).length) :
    (main reprojection files).exit = .returned := by
  obtain ⟨s, hs⟩ := loaderLoop_total D hint files (initState D files.length) hp rfl
    (by simp [initState, Matrix.alloc])
  have hle := loaderLoop_verts_le D files _ s hs (by simp [initState])
  obtain ⟨out, hout⟩ := copyResultFrom_total (reprojection s.pca_input_matrix) s.verts 0
    (by have := hres s.pca_input_matrix; omega) (by omega)
  simp [main, loadEnsemble, hD, hs, hout]

/-- A `std::exception` leaves the `try` block only at a statement of the
reader that is reached. -/
theorem tryBody_stdException_failure {F : Type} [Zero F] (D : Nat)
    (s s1 : LoaderState F) (f : PlyInput F)
    (h : tryBody D s f = .threw .stdException s1) :
    ∃ st, f.failure = some st ∧
      (st = .header ∨ st = .requestVerts ∨ f.positions.length = D) := by
  simp only [tryBody] at h
  split_ifs at h with h1 h2 hD h3 h4 h5 h6 h7
  · exact ⟨_, h1, Or.inl rfl⟩
  · exact ⟨_, h2, Or.inr (Or.inl rfl)⟩
  · injection h with he _
    exact absurd he (by decide)
  · rw [resize_length] at hD
    exact ⟨_, h3, Or.inr (Or.inr (not_not.mp hD))⟩
  · rw [resize_length] at hD
    exact ⟨_, h4, Or.inr (Or.inr (not_not.mp hD))⟩
  · rw [resize_length] at hD
    exact ⟨_, h5, Or.inr (Or.inr (not_not.mp hD))⟩
  · rw [resize_length] at hD
    exact ⟨_, h6, Or.inr (Or.inr (not_not.mp hD))⟩
  · rw [resize_length] at hD
    exact ⟨_, h7, Or.inr (Or.inr (not_not.mp hD))⟩
  · split at h
    · exact Run.noConfusion h
    · rename_i e m1 hw
      exact absurd hw (writeColumnFrom_ne_threw _ _ _ _ _ _)
    · exact Run.noConfusion h

/-- The loop over a list continues, after the files of a first part that ended
normally, with the files that follow. -/
theorem loaderLoop_append {F : Type} [Zero F] (D : Nat) (pre : List (PlyInput F)) :
    ∀ (s s1 : LoaderState F) (l : List (PlyInput F)),
      loaderLoop D s pre = .normal s1 →
      loaderLoop D s (pre ++ l) = loaderLoop D s1 l := by
  induction pre with
  | nil =>
    intro s s1 l h
    simp only [loaderLoop] at h
    injection h with h
    subst h
    rfl
  | cons f rest ih =>
    intro s s1 l h
    simp only [loaderLoop] at h
    split at h
    · rename_i s2 h2
      simp only [List.cons_append, loaderLoop, h2]
      exact ih s2 s1 l h
    · rename_i r hne
      exact absurd h (hne s1)

/-- When the probe of the first file fails (no file was discovered, or the
header or the position request of the first file throws), the exception ends
the program before the loader loop: the PCA engine is not invoked and no output
file is written. -/
theorem failed_probe_stops_before_pca {F : Type} [Zero F]
    (reprojection : Matrix F → List F) (files : List (PlyInput F)) (e : Exn)
    (h : firstFileSize files = .error e) :
    (main reprojection files).exit = .terminated e ∧
    pcaInvoked (main reprojection files) = false ∧
    outputWritten (main reprojection files) = false := by
  have hm : main reprojection files = ⟨[], .terminated e⟩ := by
    simp [main, loadEnsemble, h]
  rw [hm]
  exact ⟨rfl, rfl, rfl⟩

/-! ## The claims -/

/-- C1 (the code departs from it): a file whose position count differs from
that of the first file is not skipped.  On the batch `meshA`,
`meshTwoVertices`, `meshB` the `const char*` thrown at line 97 passes the
handler of line 116, leaves the loop with `file_count = 1`, and ends the
program before `meshB` is read and before the PCA engine is invoked. -/
theorem mismatch_escapes_loader_loop :
    (∃ s, loadEnsemble [meshA, meshTwoVertices, meshB] = .threw .cString s ∧
      s.file_count = 1) ∧
    (∀ rest : List (PlyInput Int),
      ∃ s, loaderLoop 3 (initState 3 3) (meshA :: meshTwoVertices :: rest)
        = .threw .cString s) ∧
    ∀ reprojection : Matrix Int → List Int,
      main reprojection [meshA, meshTwoVertices, meshB] = ⟨[], .terminated .cString⟩ := by
  refine ⟨⟨_, rfl, rfl⟩, fun rest => ⟨_, rfl⟩, fun reprojection => rfl⟩

/-- C2 (the code departs from it): on the batch `meshA`, `meshUnreadable`,
`meshB`, in which the second of three files is not accepted, `file_count` ends
at 2 but the matrix handed to `set_input` has 3 columns, the last of which was
never written. -/
theorem rejected_file_leaves_unwritten_column (reprojection : Matrix Int → List Int) :
    ∃ s tail, loadEnsemble [meshA, meshUnreadable, meshB] = .normal s ∧
      s.file_count = 2 ∧
      (main reprojection [meshA, meshUnreadable, meshB]).trace
        = [.set_input s.pca_input_matrix, .compute, .reprojection] ++ tail ∧
      s.pca_input_matrix.cols = 3 ∧
      ∀ i, s.pca_input_matrix.coeff i 2 = none := by
  have h : ∃ s, loadEnsemble [meshA, meshUnreadable, meshB] = .normal s ∧
      s.file_count = 2 ∧ s.pca_input_matrix.cols = 3 ∧
      ∀ i, s.pca_input_matrix.coeff i 2 = none :=
    ⟨_, rfl, rfl, rfl, fun i => by simp [initState, Matrix.alloc, UINT32_MOD]⟩
  obtain ⟨s, hs, hfc, hcols, hco⟩ := h
  obtain ⟨tail, ht⟩ := main_trace_of_normal reprojection _ s hs
  exact ⟨s, tail, hs, hfc, ht, hcols, hco⟩

/-- C3: when the loader loop ends (normally), `file_count` is the number of
accepted files and, for each `k < file_count`, column `k` of the observation
matrix is the flattened position vector of the `k`-th accepted file in list
order: entry `(i, k)` is its `i`-th coordinate for every `i < D`.  The list is
short enough for the 32-bit `file_count` to count it. -/
theorem columns_hold_accepted_positions {F : Type} [Zero F]
    (files : List (PlyInput F)) (D : Nat) (s : LoaderState F)
    (hD : firstFileSize files = .ok D)
    (hrun : loadEnsemble files = .normal s)
    (hlen : files.length < UINT32_MOD) :
    s.file_count = (files.filter (accepted D)).length ∧
    ∀ k i, k < s.file_count → i < D →
      ∃ f v, (files.filter (accepted D))[k]? = some f ∧
        f.positions[i]? = some v ∧ s.pca_input_matrix.coeff i k = some v := by
  obtain ⟨D1, hD1, hloop⟩ := loadEnsemble_normal files s hrun
  rw [hD] at hD1
  injection hD1 with hD1
  subst hD1
  have h := loaderLoop_columns D files (initState D files.length) s [] hloop rfl
    (by simpa using hlen) (by intro k i hk; simp at hk)
  simp only [List.nil_append] at h
  refine ⟨h.1, ?_⟩
  intro k i hk hi
  exact h.2 k i (by rw [← h.1]; exact hk) hi

/-- Witness of C3: the batch `meshA`, `meshUnreadable`, `meshB`. -/
theorem columns_hold_accepted_positions_witness :
    ∃ s, firstFileSize [meshA, meshUnreadable, meshB] = .ok 3 ∧
      loadEnsemble [meshA, meshUnreadable, meshB] = .normal s ∧
      [meshA, meshUnreadable, meshB].length < UINT32_MOD ∧
      s.file_count = ([meshA, meshUnreadable, meshB].filter (accepted 3)).length ∧
      ∀ k i, k < s.file_count → i < 3 →
        ∃ f v, ([meshA, meshUnreadable, meshB].filter (accepted 3))[k]? = some f ∧
          f.positions[i]? = some v ∧ s.pca_input_matrix.coeff i k = some v :=
  ⟨_, rfl, rfl, by decide,
    columns_hold_accepted_positions [meshA, meshUnreadable, meshB] 3 _ rfl rfl (by decide)⟩

/-- C4, as the claim states it, fails: in the batch `meshBadHeader`, `meshA`,
`meshB` the parsing of the first file raises a `std::exception`, and it does so
first at the probe of lines 59-62, outside any `try`: the exception ends the
program, the loop is never entered and the two remaining files are never
processed. -/
theorem first_file_parse_exception_escapes :
    meshBadHeader.failure = some .header ∧
    (∃ s, loadEnsemble [meshBadHeader, meshA, meshB] = .threw .stdException s) ∧
    ∀ reprojection : Matrix Int → List Int,
      main reprojection [meshBadHeader, meshA, meshB]
        = ⟨[], .terminated .stdException⟩ :=
  ⟨rfl, ⟨_, rfl⟩, fun _ => rfl⟩

/-- C4, amended: in a batch whose probe of the first file succeeds, let the
loop reach a file `f` (the files `pre` before it have been gone through, leaving
the state `s`) whose parsing raises a `std::exception` from the mesh reader:
the reader throws at the header or at the position request, or at a later
statement of a file whose position count passes the check of line 96.  Then the
exception is raised in the `try` block and the handler takes it: the iteration
ends normally, `file_count` and the observation matrix (every entry of it) are
what they were before the iteration, and the loader goes on with the remaining
files `rest`. -/
theorem parse_exception_in_loop_is_contained {F : Type} [Zero F]
    (pre rest : List (PlyInput F)) (f : PlyInput F) (st : Stage) (D : Nat)
    (s : LoaderState F)
    (hD : firstFileSize (pre ++ f :: rest) = .ok D)
    (hpre : loaderLoop D (initState D (pre ++ f :: rest).length) pre = .normal s)
    (hfail : f.failure = some st)
    (hreached : st = .header ∨ st = .requestVerts ∨ f.positions.length = D) :
    ∃ s1, tryBody D s f = .threw .stdException s1 ∧
      loadFile D s f = .normal s1 ∧
      s1.file_count = s.file_count ∧
      s1.pca_input_matrix = s.pca_input_matrix ∧
      loadEnsemble (pre ++ f :: rest) = loaderLoop D s1 rest := by
  obtain ⟨s1, h⟩ := tryBody_throws_at_failure D s f st hfail hreached
  have hl : loadFile D s f = .normal s1 := by
    unfold loadFile
    rw [h]
  obtain ⟨hc, hm⟩ := tryBody_stdException D s s1 f h
  refine ⟨s1, h, hl, hc, hm, ?_⟩
  have happ := loaderLoop_append D pre _ s (f :: rest) hpre
  simp only [loadEnsemble, hD, happ, loaderLoop, hl]

/-- Witness of C4 amended: the batch `meshA`, `meshUnreadable`, `meshB` at the
iteration for `meshUnreadable`, whose `file.read` throws. -/
theorem parse_exception_in_loop_is_contained_witness :
    firstFileSize [meshA, meshUnreadable, meshB] = .ok 3 ∧
    meshUnreadable.failure = some .read ∧
    meshUnreadable.positions.length = 3 ∧
    ∃ s, loaderLoop 3 (initState 3 3) [meshA] = .normal s ∧
      ∃ s1, tryBody 3 s meshUnreadable = .threw .stdException s1 ∧
        loadFile 3 s meshUnreadable = .normal s1 ∧
        s1.file_count = s.file_count ∧
        s1.pca_input_matrix = s.pca_input_matrix ∧
        loadEnsemble [meshA, meshUnreadable, meshB] = loaderLoop 3 s1 [meshB] :=
  ⟨rfl, rfl, rfl, _, rfl,
    parse_exception_in_loop_is_contained [meshA] [meshB] meshUnreadable .read 3 _
      rfl rfl rfl (Or.inr (Or.inr rfl))⟩

/-- C6: for each of the five arrays given to the writer, a section for it is
added to the output mesh if and only if the array is non-empty; the section
added carries that array, so no section is empty. -/
theorem section_added_iff_nonempty {F : Type} (b : Buffers F) :
    ((∃ d, Section.vertexXYZ d ∈ plySections b) ↔ b.verts ≠ []) ∧
    ((∃ d, Section.vertexNormals d ∈ plySections b) ↔ b.norms ≠ []) ∧
    ((∃ d, Section.vertexColors d ∈ plySections b) ↔ b.colors ≠ []) ∧
    ((∃ d, Section.faceIndices d ∈ plySections b) ↔ b.faces ≠ []) ∧
    ((∃ d, Section.faceTexcoords d ∈ plySections b) ↔ b.uvCoords ≠ []) ∧
    (∀ d, Section.vertexXYZ d ∈ plySections b ↔ d = b.verts ∧ b.verts ≠ []) ∧
    (∀ d, Section.vertexNormals d ∈ plySections b ↔ d = b.norms ∧ b.norms ≠ []) ∧
    (∀ d, Section.vertexColors d ∈ plySections b ↔ d = b.colors ∧ b.colors ≠ []) ∧
    (∀ d, Section.faceIndices d ∈ plySections b ↔ d = b.faces ∧ b.faces ≠ []) ∧
    (∀ d, Section.faceTexcoords d ∈ plySections b ↔ d = b.uvCoords ∧ b.uvCoords ≠ []) := by
  obtain ⟨v, n, c, fc, uv⟩ := b
  simp only [plySections]
  refine ⟨?_, ?_, ?_, ?_, ?_, ?_, ?_, ?_, ?_, ?_⟩ <;>
    cases v <;> cases n <;> cases c <;> cases fc <;> cases uv <;> simp

/-- C7 (the code departs from it): on the batch `meshA`, `meshBadColors` the
only accepted file, `meshA`, has no normals, yet the normals given to the
writer are the three zeros that the normal request of the rejected file
`meshBadColors` left in the shared buffer, and a normals section is written. -/
theorem rejected_file_changes_normals :
    [meshA, meshBadColors].filter (accepted 3) = [meshA] ∧
    meshA.normals = [] ∧
    ∃ m b, main zeroEngine [meshA, meshBadColors]
        = ⟨[.set_input m, .compute, .reprojection, .write b], .returned⟩ ∧
      b.norms = [0, 0, 0] ∧
      Section.vertexNormals [0, 0, 0] ∈ plySections b :=
  ⟨rfl, rfl, _, _, rfl, rfl, by simp [plySections, resize, meshA, meshBadColors]⟩

/-- C8: in a run of `main` that reaches the writer on a batch with at least
one accepted file, the matrix handed to the PCA engine has `D` rows, the
position array given to the writer has length `D`, and its `i`-th entry is
entry `i` of what `reprojection()` returned, for every `i < D`; nothing is
assumed about the last file of the list. -/
theorem writer_positions_are_reprojection {F : Type} [Zero F]
    (reprojection : Matrix F → List F) (files : List (PlyInput F)) (D : Nat)
    (hD : firstFileSize files = .ok D)
    (hacc : ∃ f ∈ files, accepted D f = true)
    (hret : (main reprojection files).exit = .returned) :
    ∃ m b, (main reprojection files).trace
        = [.set_input m, .compute, .reprojection, .write b] ∧
      m.rows = D ∧ b.verts.length = D ∧
      ∀ i, i < D → ∃ v, (reprojection m)[i]? = some v ∧ b.verts[i]? = some v := by
  obtain ⟨s, verts, hs, hv, ht⟩ := main_returned reprojection files hret
  obtain ⟨D1, hD1, hloop⟩ := loadEnsemble_normal files s hs
  rw [hD] at hD1
  injection hD1 with hD1
  subst hD1
  have hlen := loaderLoop_verts_length D files _ s hloop (Or.inr hacc)
  obtain ⟨hrows, _⟩ := loaderLoop_dims D files _ s hloop
  obtain ⟨hvl, hvj⟩ := copyResultFrom_normal _ _ _ _ hv
  refine ⟨s.pca_input_matrix, _, ht, ?_, ?_, ?_⟩
  · rw [hrows]
    rfl
  · show verts.length = D
    rw [hvl, hlen]
  · intro i hi
    obtain ⟨v, h1, h2⟩ := hvj i (by rw [hlen]; exact hi)
    refine ⟨v, ?_, h2⟩
    simpa using h1

/-- Witness of C8: the batch `meshA`, `meshB`, `meshUnreadable`, whose last
file is not accepted. -/
theorem writer_positions_are_reprojection_witness :
    firstFileSize [meshA, meshB, meshUnreadable] = .ok 3 ∧
    (∃ f ∈ [meshA, meshB, meshUnreadable], accepted 3 f = true) ∧
    (main zeroEngine [meshA, meshB, meshUnreadable]).exit = .returned ∧
    ∃ m b, (main zeroEngine [meshA, meshB, meshUnreadable]).trace
        = [.set_input m, .compute, .reprojection, .write b] ∧
      m.rows = 3 ∧ b.verts.length = 3 ∧
      ∀ i, i < 3 → ∃ v, (zeroEngine m)[i]? = some v ∧ b.verts[i]? = some v :=
  ⟨rfl, ⟨meshA, by simp, rfl⟩, rfl,
    writer_positions_are_reprojection zeroEngine [meshA, meshB, meshUnreadable] 3 rfl
      ⟨meshA, by simp, rfl⟩ rfl⟩

/-- C10: with the observation matrix allocated as `D` rows by as many columns
as files were discovered, no write `pca_input_matrix(i, file_count)` of the
loader loop is outside the matrix.  At the start of the iteration for the
`j`-th file `file_count ≤ j`, so that `file_count` is below the number of
columns, and the matrix has `D` rows, the length a written vector must have. -/
theorem matrix_writes_in_bounds {F : Type} [Zero F] (D : Nat)
    (files : List (PlyInput F)) :
    loaderLoop D (initState D files.length) files ≠ .fault .outOfBounds ∧
    ∀ j s, loaderLoop D (initState D files.length) (files.take j) = .normal s →
      s.file_count ≤ j ∧ s.pca_input_matrix.rows = D ∧
      s.pca_input_matrix.cols = files.length ∧
      ∀ f, files[j]? = some f →
        s.file_count < s.pca_input_matrix.cols ∧ tryBody D s f ≠ .fault .outOfBounds := by
  refine ⟨loaderLoop_inBounds D files _ rfl (by simp [initState, Matrix.alloc]), ?_⟩
  intro j s h
  have hle := loaderLoop_file_count_le D _ _ s h
  obtain ⟨hr, hc⟩ := loaderLoop_dims D _ _ s h
  have hfc : s.file_count ≤ j := by
    have h0 : (initState D files.length : LoaderState F).file_count = 0 := rfl
    have h1 : (files.take j).length ≤ j := by simp
    omega
  have hr1 : s.pca_input_matrix.rows = D := by rw [hr]; rfl
  have hc1 : s.pca_input_matrix.cols = files.length := by rw [hc]; rfl
  refine ⟨hfc, hr1, hc1, ?_⟩
  intro f hf
  have hj : j < files.length := by
    rcases Nat.lt_or_ge j files.length with hlt | hge
    · exact hlt
    · rw [List.getElem?_eq_none hge] at hf
      exact absurd hf (by simp)
  have hlt : s.file_count < s.pca_input_matrix.cols := by omega
  exact ⟨hlt, tryBody_inBounds D s f hr1 hlt⟩

/-- Witness of C10: the batch `meshA`, `meshUnreadable`, `meshB` at the start
of the iteration for its last file. -/
theorem matrix_writes_in_bounds_witness :
    loaderLoop 3 (initState 3 3) [meshA, meshUnreadable, meshB] ≠ .fault .outOfBounds ∧
    ∃ s, loaderLoop 3 (initState 3 3) [meshA, meshUnreadable] = .normal s ∧
      s.file_count ≤ 2 ∧ s.pca_input_matrix.rows = 3 ∧ s.pca_input_matrix.cols = 3 ∧
      s.file_count < s.pca_input_matrix.cols ∧
      tryBody 3 s meshB ≠ .fault .outOfBounds :=
  ⟨(matrix_writes_in_bounds 3 [meshA, meshUnreadable, meshB]).1, _, rfl,
    ((matrix_writes_in_bounds 3 [meshA, meshUnreadable, meshB]).2 2 _ rfl).1,
    ((matrix_writes_in_bounds 3 [meshA, meshUnreadable, meshB]).2 2 _ rfl).2.1,
    ((matrix_writes_in_bounds 3 [meshA, meshUnreadable, meshB]).2 2 _ rfl).2.2.1,
    ((matrix_writes_in_bounds 3 [meshA, meshUnreadable, meshB]).2 2 _ rfl).2.2.2 meshB rfl⟩

end PcaMesh
